import Mathlib

/-!
Shallow embedding of the key-store identity logic (keystore.cpp):
name parsing (`ParseSubNames`), identity-ID derivation (`CIdentity::CleanName`,
`CIdentity::GetNameID`), the bounded per-identity history
(`CIdentityWithHistory::UpdateIdentity`), the registry operations on
`CBasicKeyStore`, the HD-seed slot, the identity-aware script map, and the
Sapling key-chain maps.  Strings are modelled as `List Char`; the opaque
256-bit and 160-bit digest primitives are a parameter structure `HashModel`;
a 160-bit value is a `Nat`, with the null `uint160` being `0`.
-/

/-- The opaque hash primitives consumed by the identity-ID derivation:
`hashStr` is `Hash(begin, end)` over the bytes of a C string, `hashCat` is
`Hash(parent.begin, parent.end, idHash.begin, idHash.end)` as a function of
the two values, `hash160` is `Hash160` of a 256-bit value. -/
structure HashModel where
  hashStr : List Char → Nat
  hashCat : Nat → Nat → Nat
  hash160 : Nat → Nat

/-- The characters `\ / : * ? " < > |` replaced by `_` in `ParseSubNames`. -/
def invalidChars : List Char := ['\\', '/', ':', '*', '?', '"', '<', '>', '|']

def sanitizeCh (c : Char) : Char :=
  if c ∈ invalidChars then '_' else c

/-- `boost::split(retNames, nameCopy, boost::is_any_of(".@"))`: split at every
`.` or `@`, keeping empty tokens; the empty string yields one empty token. -/
def splitLabels : List Char → List (List Char)
  | [] => [[]]
  | c :: rest =>
    match splitLabels rest with
    | [] => [[c]]
    | l :: ls => if c = '.' ∨ c = '@' then [] :: l :: ls else (c :: l) :: ls

/-- `KOMODO_ASSETCHAIN_MAXLEN`, the fixed maximum label length (65 in the
chain parameters; the exact value is irrelevant to the properties proved). -/
def KOMODO_ASSETCHAIN_MAXLEN : Nat := 65

/-- `ParseSubNames`: replace invalid characters, split on `.` and `@`, and
truncate each piece longer than `KOMODO_ASSETCHAIN_MAXLEN - 1` characters. -/
def ParseSubNames (Name : List Char) : List (List Char) :=
  (splitLabels (Name.map sanitizeCh)).map
    (fun l => if l.length > KOMODO_ASSETCHAIN_MAXLEN - 1
              then l.take (KOMODO_ASSETCHAIN_MAXLEN - 1) else l)

/-- ASCII lower-casing as done by `boost::algorithm::to_lower_copy` in the
classic locale. -/
def toLowerCh (c : Char) : Char :=
  if 'A' ≤ c ∧ c ≤ 'Z' then Char.ofNat (c.toNat + 32) else c

def lowerStr (l : List Char) : List Char := l.map toLowerCh

/-- The bytes actually hashed through `c_str()` / `strlen`: everything up to
the first NUL character. -/
def cstr (l : List Char) : List Char := l.takeWhile (fun c => c ≠ Char.ofNat 0)

structure CIdentity where
  name : List Char
  parent : Nat
  deriving DecidableEq, Repr

/-- One iteration of the `CleanName` loop body: lower-case the label, hash it,
chain with the current parent when the parent is non-null, and compress with
`Hash160`. -/
def hashLabelStep (M : HashModel) (Parent : Nat) (label : List Char) : Nat :=
  let digest := M.hashStr (cstr (lowerStr label))
  let idHash := if Parent = 0 then digest else M.hashCat Parent digest
  M.hash160 idHash

/-- `CIdentity::CleanName`: parse into sub-names; walk indices
`size-1` down to `1` hashing each into the parent accumulator; return the
leaf label `subNames[0]`.  The walk is the left fold over the reversed tail. -/
def CIdentity.CleanName (M : HashModel) (Name : List Char) (Parent : Nat) :
    List Char × Nat :=
  match ParseSubNames Name with
  | [] => ([], Parent)
  | l0 :: rest => (l0, rest.reverse.foldl (hashLabelStep M) Parent)

/-- `CIdentity::GetNameID(Name, parent)`: run `CleanName` on a copy of the
parent (result discarded), then hash the lower-cased ORIGINAL string with the
ORIGINAL `parent` argument. -/
def GetNameID (M : HashModel) (Name : List Char) (parent : Nat) : Nat :=
  let _cleanName := CIdentity.CleanName M Name parent
  let digest := M.hashStr (cstr (lowerStr Name))
  let idHash := if parent = 0 then digest else M.hashCat parent digest
  M.hash160 idHash

/-- The member `CIdentity::GetNameID() const`: uses the stored name and the
stored parent field (a name distinct from the two-argument form, since Lean
does not overload). -/
def CIdentity.getNameID (M : HashModel) (c : CIdentity) : Nat :=
  GetNameID M c.name c.parent

/-- Concrete instantiation of the opaque digests, used to evaluate the
development on concrete inputs: `hashStr` is the injective base-256 encoding
of the characters, `hashCat` is a pairing that keeps the parent visible. -/
def encodeChars (l : List Char) : Nat := l.foldl (fun a c => a * 256 + c.toNat) 1

def MC : HashModel :=
  { hashStr := encodeChars
    hashCat := fun p d => (p + 1) * 2 ^ 256 + d
    hash160 := fun n => n }

def str (s : String) : List Char := s.data

/-! ## Association-list model of the `std::map` containers -/

def alookup {α : Type} : List (Nat × α) → Nat → Option α
  | [], _ => none
  | (k, v) :: rest, key => if key = k then some v else alookup rest key

/-- `map[key] = value`: replace the entry when the key is present, append
otherwise. -/
def aassign {α : Type} : List (Nat × α) → Nat → α → List (Nat × α)
  | [], key, value => [(key, value)]
  | (k, v) :: rest, key, value =>
    if key = k then (k, value) :: rest else (k, v) :: aassign rest key value

/-- `map.erase(key)`: drop the entry with the given key. -/
def aerase {α : Type} : List (Nat × α) → Nat → List (Nat × α)
  | [], _ => []
  | (k, v) :: rest, key => if key = k then rest else (k, v) :: aerase rest key

/-- `std::map::insert`: height-ordered insertion that does NOT overwrite an
existing key. -/
def mapInsert {α : Type} (key : Nat) (value : α) :
    List (Nat × α) → List (Nat × α)
  | [] => [(key, value)]
  | (k, v) :: rest =>
    if key < k then (key, value) :: (k, v) :: rest
    else if key = k then (k, v) :: rest
    else (k, v) :: mapInsert key value rest

/-- The last element of a list (`std::map::rbegin` on the sorted entry list),
with a default for the impossible empty case. -/
def lastD {α : Type} (d : α) : List α → α
  | [] => d
  | [a] => a
  | _ :: b :: rest => lastD d (b :: rest)

/-- The strictly-increasing-keys invariant of a `std::map`'s entry list. -/
def keysSorted {α : Type} : List (Nat × α) → Bool
  | [] => true
  | [_] => true
  | a :: b :: rest => a.1 < b.1 && keysSorted (b :: rest)

/-! ## `CIdentityWithHistory` and the bounded history update -/

/-- Modelled from the spec: the version and validity constants of a history
record live in a header that is not part of the provided source; only their
use as "current version" and "valid" markers matters here. -/
def HISTORY_VERSION_CURRENT : Nat := 1

def HISTORY_VALID : Nat := 1

structure CIdentityWithHistory where
  version : Nat
  flags : Nat
  ids : List (Nat × CIdentity)
  deriving DecidableEq, Repr

/-- Modelled from the spec: a history record is valid when its validity flag
is set ("provided the record is valid and non-empty"). -/
def CIdentityWithHistory.IsValid (s : CIdentityWithHistory) : Bool :=
  s.flags = HISTORY_VALID

/-- `CIdentityWithHistory::UpdateIdentity`.  The source dereferences
`ids.begin()` without guarding against an empty map; that (undefined) case is
`none`.  `txId` is accepted and ignored, as in the source. -/
def CIdentityWithHistory.UpdateIdentity (s : CIdentityWithHistory)
    (identity : CIdentity) (txId : Nat) (blockHeight : Nat) :
    Option (CIdentityWithHistory × Bool) :=
  match s.ids with
  | [(k, v)] =>
    if blockHeight ≠ k
    then some ({ s with ids := mapInsert blockHeight identity [(k, v)] }, true)
    else some (s, true)
  | [] => none
  | (k, v) :: rest =>
    if blockHeight > k then
      if blockHeight ≠ (lastD (k, v) ((k, v) :: rest)).1
      then some ({ s with ids := mapInsert blockHeight identity rest }, true)
      else some (s, true)
    else some (s, false)

/-! ## `CBasicKeyStore` -/

structure CBasicKeyStore where
  mapIdentities : List (Nat × CIdentityWithHistory)
  mapScripts : List (Nat × List Nat)
  hdSeed : Option Nat
  mapSaplingSpendingKeys : List (Nat × Nat)
  mapSaplingFullViewingKeys : List (Nat × Nat)
  mapSaplingIncomingViewingKeys : List (Nat × Nat)
  deriving DecidableEq, Repr

def emptyStore : CBasicKeyStore :=
  { mapIdentities := []
    mapScripts := []
    hdSeed := none
    mapSaplingSpendingKeys := []
    mapSaplingFullViewingKeys := []
    mapSaplingIncomingViewingKeys := [] }

/-- `CBasicKeyStore::UpdateIdentity`: fail when no history is filed under
`identity.GetNameID()`; otherwise run the per-identity update in place and
return true, discarding the inner boolean. -/
def CBasicKeyStore.UpdateIdentity (M : HashModel) (s : CBasicKeyStore)
    (identity : CIdentity) (txId : Nat) (blockHeight : Nat) :
    Option (CBasicKeyStore × Bool) :=
  match alookup s.mapIdentities (identity.getNameID M) with
  | none => some (s, false)
  | some hist =>
    match hist.UpdateIdentity identity txId blockHeight with
    | none => none
    | some (hist2, _) =>
      some ({ s with mapIdentities :=
                aassign s.mapIdentities (identity.getNameID M) hist2 }, true)

/-- `CBasicKeyStore::AddIdentity`: refuse when an entry already exists, else
file a fresh single-entry history. -/
def CBasicKeyStore.AddIdentity (M : HashModel) (s : CBasicKeyStore)
    (identity : CIdentity) (txId : Nat) (blockHeight : Nat) :
    CBasicKeyStore × Bool :=
  if (alookup s.mapIdentities (identity.getNameID M)).isSome
  then (s, false)
  else ({ s with mapIdentities :=
            (aassign s.mapIdentities (identity.getNameID M)
              ⟨HISTORY_VERSION_CURRENT, HISTORY_VALID,
               [(blockHeight, identity)]⟩) }, true)

/-- `CBasicKeyStore::RemoveIdentity`: unconditional erase, always true. -/
def CBasicKeyStore.RemoveIdentity (s : CBasicKeyStore) (idID : Nat) :
    CBasicKeyStore × Bool :=
  ({ s with mapIdentities := aerase s.mapIdentities idID }, true)

/-- `CBasicKeyStore::AddUpdateIdentityAndHistory`: wholesale replacement keyed
by the EARLIEST entry's name ID, only when the record is valid and
non-empty. -/
def CBasicKeyStore.AddUpdateIdentityAndHistory (M : HashModel)
    (s : CBasicKeyStore) (idWithHistory : CIdentityWithHistory) :
    CBasicKeyStore × Bool :=
  match idWithHistory.ids with
  | [] => (s, true)
  | (_, v) :: _ =>
    if idWithHistory.IsValid
    then ({ s with mapIdentities :=
              aassign s.mapIdentities (v.getNameID M) idWithHistory }, true)
    else (s, true)

/-! ## HD seed slot -/

/-- `CBasicKeyStore::SetHDSeed`: refuse to change an existing seed.  The seed
slot is modelled from the spec as an optional value ("one HD seed slot
(write-once)"; `hdSeed.IsNull()` means no seed set). -/
def CBasicKeyStore.SetHDSeed (s : CBasicKeyStore) (seed : Nat) :
    CBasicKeyStore × Bool :=
  match s.hdSeed with
  | some _ => (s, false)
  | none => ({ s with hdSeed := some seed }, true)

/-- `CBasicKeyStore::GetHDSeed`: false exactly when the slot is null. -/
def CBasicKeyStore.GetHDSeed (s : CBasicKeyStore) : Option Nat :=
  s.hdSeed

/-- A sequence of `SetHDSeed` calls, collecting each call's boolean result. -/
def runSetHDSeeds (s : CBasicKeyStore) : List Nat → CBasicKeyStore × List Bool
  | [] => (s, [])
  | seed :: rest =>
    let p := CBasicKeyStore.SetHDSeed s seed
    let q := runSetHDSeeds p.1 rest
    (q.1, p.2 :: q.2)

/-! ## Identity-aware script storage -/

/-- Modelled from the spec: the eval code that tags an identity-primary
spending condition (`EVAL_IDENTITY_PRIMARY`, declared outside the provided
source; the value is immaterial). -/
def EVAL_IDENTITY_PRIMARY : Nat := 20

/-- Modelled from the spec: the maximum allowed redeem-script size
(`MAX_SCRIPT_ELEMENT_SIZE`, declared outside the provided source). -/
def MAX_SCRIPT_ELEMENT_SIZE : Nat := 520

/-- The decoded `COptCCParams` of a crypto-condition script. -/
structure COptCCParams where
  isValid : Bool
  evalCode : Nat
  vData : List (List Nat)
  deriving DecidableEq, Repr

/-- The external script-condition decoder and identity parser consumed by
`ScriptOrIdentityID`: `isPayToCryptoCondition scr = some p` models
`scr.IsPayToCryptoCondition(p)` returning true with output `p`;
`identityFromData` models the `CIdentity(vData[0])` constructor;
`identityIsValid` models `CIdentity::IsValid`; `scriptID` models the
hash-based `CScriptID(scr)`. -/
structure ScriptExt where
  isPayToCryptoCondition : List Nat → Option COptCCParams
  identityFromData : List Nat → CIdentity
  identityIsValid : CIdentity → Bool
  scriptID : List Nat → Nat

/-- `ScriptOrIdentityID`: the identity's name ID when the script decodes to a
valid identity-primary condition with a well-formed identity, the script's
own hash-based ID otherwise. -/
def ScriptOrIdentityID (E : ScriptExt) (M : HashModel) (scr : List Nat) : Nat :=
  match E.isPayToCryptoCondition scr with
  | some p =>
    match p.vData with
    | d :: _ =>
      if p.isValid ∧ p.evalCode = EVAL_IDENTITY_PRIMARY ∧
         E.identityIsValid (E.identityFromData d)
      then (E.identityFromData d).getNameID M
      else E.scriptID scr
    | [] => E.scriptID scr
  | none => E.scriptID scr

/-- Whether the decoder reports a valid identity-primary condition embedding a
well-formed identity (the compound condition of `ScriptOrIdentityID`). -/
def isIdentityPrimaryScript (E : ScriptExt) (scr : List Nat) : Bool :=
  match E.isPayToCryptoCondition scr with
  | some p =>
    match p.vData with
    | d :: _ =>
      if p.isValid ∧ p.evalCode = EVAL_IDENTITY_PRIMARY ∧
         E.identityIsValid (E.identityFromData d)
      then true else false
    | [] => false
  | none => false

/-- The identity embedded in an identity-primary script. -/
def embeddedIdentity (E : ScriptExt) (scr : List Nat) : Option CIdentity :=
  match E.isPayToCryptoCondition scr with
  | some p =>
    match p.vData with
    | d :: _ => some (E.identityFromData d)
    | [] => none
  | none => none

/-- `CBasicKeyStore::AddCScript`: refuse oversized scripts, otherwise store
under `ScriptOrIdentityID`. -/
def CBasicKeyStore.AddCScript (E : ScriptExt) (M : HashModel)
    (s : CBasicKeyStore) (redeemScript : List Nat) : CBasicKeyStore × Bool :=
  if redeemScript.length > MAX_SCRIPT_ELEMENT_SIZE
  then (s, false)
  else ({ s with mapScripts :=
            (aassign s.mapScripts (ScriptOrIdentityID E M redeemScript)
              redeemScript) }, true)

/-! ## Sapling key chain -/

/-- The external Sapling key-derivation steps:
`fullViewingKey sk` models `sk.expsk.full_viewing_key()` and
`inViewingKey fvk` models `fvk.in_viewing_key()`. -/
structure SaplingExt where
  fullViewingKey : Nat → Nat
  inViewingKey : Nat → Nat

/-- `CBasicKeyStore::AddSaplingIncomingViewingKey`: file `addr → ivk`. -/
def CBasicKeyStore.AddSaplingIncomingViewingKey (s : CBasicKeyStore)
    (ivk : Nat) (addr : Nat) : CBasicKeyStore × Bool :=
  ({ s with mapSaplingIncomingViewingKeys :=
       (aassign s.mapSaplingIncomingViewingKeys addr ivk) }, true)

/-- `CBasicKeyStore::AddSaplingFullViewingKey`: file `ivk → fvk`, then
register the incoming viewing key for the default address. -/
def CBasicKeyStore.AddSaplingFullViewingKey (E : SaplingExt)
    (s : CBasicKeyStore) (fvk : Nat) (defaultAddr : Nat) :
    CBasicKeyStore × Bool :=
  let ivk := E.inViewingKey fvk
  CBasicKeyStore.AddSaplingIncomingViewingKey
    { s with mapSaplingFullViewingKeys :=
        (aassign s.mapSaplingFullViewingKeys ivk fvk) } ivk defaultAddr

/-- `CBasicKeyStore::AddSaplingSpendingKey`: derive and register the full
viewing key (aborting on failure), then file `fvk → sk`. -/
def CBasicKeyStore.AddSaplingSpendingKey (E : SaplingExt) (s : CBasicKeyStore)
    (sk : Nat) (defaultAddr : Nat) : CBasicKeyStore × Bool :=
  let fvk := E.fullViewingKey sk
  let p := CBasicKeyStore.AddSaplingFullViewingKey E s fvk defaultAddr
  if p.2 = false then (s, false)
  else ({ p.1 with mapSaplingSpendingKeys :=
            (aassign p.1.mapSaplingSpendingKeys fvk sk) }, true)

/-- `CBasicKeyStore::GetSaplingIncomingViewingKey`. -/
def CBasicKeyStore.GetSaplingIncomingViewingKey (s : CBasicKeyStore)
    (addr : Nat) : Option Nat :=
  alookup s.mapSaplingIncomingViewingKeys addr

/-- `CBasicKeyStore::GetSaplingFullViewingKey`. -/
def CBasicKeyStore.GetSaplingFullViewingKey (s : CBasicKeyStore)
    (ivk : Nat) : Option Nat :=
  alookup s.mapSaplingFullViewingKeys ivk

/-- Modelled from the spec: `GetSaplingSpendingKey`, the lookup of the
spending-key map by full viewing key; the getter itself is declared outside
the provided source ("spending key lookup ... fails if any link is
missing"). -/
def CBasicKeyStore.GetSaplingSpendingKey (s : CBasicKeyStore)
    (fvk : Nat) : Option Nat :=
  alookup s.mapSaplingSpendingKeys fvk

/-- `CBasicKeyStore::GetSaplingExtendedSpendingKey`: walk address →
incoming viewing key → full viewing key → spending key. -/
def CBasicKeyStore.GetSaplingExtendedSpendingKey (s : CBasicKeyStore)
    (addr : Nat) : Option Nat :=
  match s.GetSaplingIncomingViewingKey addr with
  | none => none
  | some ivk =>
    match s.GetSaplingFullViewingKey ivk with
    | none => none
    | some fvk => s.GetSaplingSpendingKey fvk

/-! ## Operation sequences -/

/-- A sequence of per-identity `UpdateIdentity` calls, each given as the
identity to file and the block height; the undefined (empty-history) case
propagates. -/
def runUpdates (ids : CIdentityWithHistory) :
    List (CIdentity × Nat) → Option CIdentityWithHistory
  | [] => some ids
  | (identity, h) :: rest =>
    match ids.UpdateIdentity identity 0 h with
    | none => none
    | some (ids2, _) => runUpdates ids2 rest

/-- Strictly increasing sequence of heights. -/
def strictIncr : List Nat → Bool
  | [] => true
  | [_] => true
  | a :: b :: rest => a < b && strictIncr (b :: rest)

/-- The identity-registry operations of `CBasicKeyStore`. -/
inductive IdOp where
  | add (identity : CIdentity) (txId : Nat) (blockHeight : Nat)
  | update (identity : CIdentity) (txId : Nat) (blockHeight : Nat)
  | remove (idID : Nat)
  | addUpdate (idWithHistory : CIdentityWithHistory)

/-- One registry operation on the store; the undefined (empty-history
dereference) case of `update` propagates as `none`. -/
def stepIdOp (M : HashModel) (s : CBasicKeyStore) :
    IdOp → Option CBasicKeyStore
  | IdOp.add identity txId blockHeight =>
    some (s.AddIdentity M identity txId blockHeight).1
  | IdOp.update identity txId blockHeight =>
    match s.UpdateIdentity M identity txId blockHeight with
    | none => none
    | some (s2, _) => some s2
  | IdOp.remove idID => some (s.RemoveIdentity idID).1
  | IdOp.addUpdate idWithHistory =>
    some (s.AddUpdateIdentityAndHistory M idWithHistory).1

/-- A sequence of registry operations starting from a given store. -/
def runIdOps (M : HashModel) (s : CBasicKeyStore) :
    List IdOp → Option CBasicKeyStore
  | [] => some s
  | op :: rest =>
    match stepIdOp M s op with
    | none => none
    | some s2 => runIdOps M s2 rest

/-! ## Concrete external collaborators for evaluation -/

/-- Concrete script-condition decoder used to evaluate the development:
the one-byte script `[1]` decodes to a valid identity-primary condition
embedding the identity named `a`, everything else is not a crypto
condition. -/
def EC : ScriptExt :=
  { isPayToCryptoCondition := fun scr =>
      if scr = [1] then some ⟨true, EVAL_IDENTITY_PRIMARY, [[7]]⟩ else none
    identityFromData := fun _ => ⟨['a'], 0⟩
    identityIsValid := fun _ => true
    scriptID := fun scr => 1000 + scr.length }

/-- Concrete Sapling derivation steps used to evaluate the development. -/
def ES : SaplingExt :=
  { fullViewingKey := fun sk => sk + 100
    inViewingKey := fun fvk => fvk + 100 }

/-! ## Claim theorems -/

/-- C1, counterexample: with a concrete hash instantiation, `CleanName` on
`"Alice.Bob"` with a null parent does accumulate
`parent1 = Hash160(Hash("bob"))`, yet `GetNameID("Alice.Bob", null)` is NOT
`Hash160(Hash(parent1 || Hash("alice.bob")))`: the accumulated parent is
discarded and, the passed parent being null, only the lower-cased full string
is hashed. -/
theorem getNameID_aliceBob_counterexample :
    (CIdentity.CleanName MC (str "Alice.Bob") 0).2
        = MC.hash160 (MC.hashStr (str "bob")) ∧
    GetNameID MC (str "Alice.Bob") 0
        ≠ MC.hash160 (MC.hashCat ((CIdentity.CleanName MC (str "Alice.Bob") 0).2)
            (MC.hashStr (str "alice.bob"))) := by
  refine ⟨by rfl, by decide⟩

/-- C1 (amended): for every hash instantiation,
`GetNameID("Alice.Bob", null) = Hash160(Hash("alice.bob"))` — the final ID
hashes only the lower-cased full original string, because the parent argument
is null and the parent accumulated by `CleanName` is discarded. -/
theorem getNameID_aliceBob (M : HashModel) :
    GetNameID M (str "Alice.Bob") 0 = M.hash160 (M.hashStr (str "alice.bob")) := by
  rfl

/-- C2: `CleanName` parses the name into labels; on an empty label sequence it
returns the empty string with the parent unchanged; otherwise it folds the
labels from the last one down to index 1 (skipping the leaf), at each step
lower-casing the label, hashing it, chaining with the parent when the parent
is non-null, and compressing with `Hash160`; it returns the leaf label with
the accumulated parent. -/
theorem cleanName_spec (M : HashModel) (Name : List Char) (Parent : Nat) :
    (ParseSubNames Name = [] →
      CIdentity.CleanName M Name Parent = ([], Parent)) ∧
    (∀ l0 rest, ParseSubNames Name = l0 :: rest →
      CIdentity.CleanName M Name Parent =
        (l0, rest.foldr
          (fun label p =>
            M.hash160 (if p = 0 then M.hashStr (cstr (lowerStr label))
                       else M.hashCat p (M.hashStr (cstr (lowerStr label)))))
          Parent)) := by
  constructor
  · intro h
    simp [CIdentity.CleanName, h]
  · intro l0 rest h
    simp only [CIdentity.CleanName, h]
    rw [List.foldl_reverse]
    rfl

/-- C2, witness: the fold evaluated on `"A.B.C"` with a null parent. -/
theorem cleanName_spec_witness :
    CIdentity.CleanName MC (str "A.B.C") 0 =
      (str "A", [str "B", str "C"].foldr
        (fun label p =>
          MC.hash160 (if p = 0 then MC.hashStr (cstr (lowerStr label))
                      else MC.hashCat p (MC.hashStr (cstr (lowerStr label)))))
        0) :=
  (cleanName_spec MC (str "A.B.C") 0).2 (str "A") [str "B", str "C"] (by rfl)

/-- C3: on a two-entry history with minimum `m` and maximum `mx` (`m < mx`),
an update at height `h` is rejected with the history unchanged when `h ≤ m`;
when `h = mx` nothing is inserted (duplicate; the call still reports true);
otherwise the minimum-height entry is evicted and `(h, identity)` inserted. -/
theorem updateIdentity_twoEntries (s : CIdentityWithHistory) (m mx : Nat)
    (A B ident : CIdentity) (txId h : Nat)
    (hids : s.ids = [(m, A), (mx, B)]) (hlt : m < mx) :
    (h ≤ m → s.UpdateIdentity ident txId h = some (s, false)) ∧
    (h = mx → s.UpdateIdentity ident txId h = some (s, true)) ∧
    (m < h → h ≠ mx →
      s.UpdateIdentity ident txId h =
        some ({ s with ids := if h < mx then [(h, ident), (mx, B)]
                              else [(mx, B), (h, ident)] }, true)) := by
  obtain ⟨ver, fl, ids⟩ := s
  simp only at hids
  subst hids
  refine ⟨?_, ?_, ?_⟩
  · intro hle
    simp [CIdentityWithHistory.UpdateIdentity, lastD]
    omega
  · intro heq
    subst heq
    simp [CIdentityWithHistory.UpdateIdentity, lastD]
    omega
  · intro hgt hne
    simp only [CIdentityWithHistory.UpdateIdentity, lastD]
    rw [if_pos (by omega : h > m), if_pos (by simpa using hne)]
    simp [mapInsert, hne]

/-- C3, witness: heights 103 (≤ min 100, rejected unchanged), 105 (= max,
duplicate, unchanged), and 110 (evicts the entry at 100) on the history
`{100 ↦ a, 105 ↦ b}`. -/
theorem updateIdentity_twoEntries_witness :
    ((⟨1, 1, [(100, ⟨['a'], 0⟩), (105, ⟨['b'], 0⟩)]⟩ :
        CIdentityWithHistory).UpdateIdentity ⟨['c'], 0⟩ 0 100 =
      some (⟨1, 1, [(100, ⟨['a'], 0⟩), (105, ⟨['b'], 0⟩)]⟩, false)) ∧
    ((⟨1, 1, [(100, ⟨['a'], 0⟩), (105, ⟨['b'], 0⟩)]⟩ :
        CIdentityWithHistory).UpdateIdentity ⟨['c'], 0⟩ 0 105 =
      some (⟨1, 1, [(100, ⟨['a'], 0⟩), (105, ⟨['b'], 0⟩)]⟩, true)) ∧
    ((⟨1, 1, [(100, ⟨['a'], 0⟩), (105, ⟨['b'], 0⟩)]⟩ :
        CIdentityWithHistory).UpdateIdentity ⟨['c'], 0⟩ 0 110 =
      some (⟨1, 1, [(105, ⟨['b'], 0⟩), (110, ⟨['c'], 0⟩)]⟩, true)) :=
  ⟨(updateIdentity_twoEntries _ 100 105 ⟨['a'], 0⟩ ⟨['b'], 0⟩ ⟨['c'], 0⟩ 0 100
      rfl (by decide)).1 (by decide),
   (updateIdentity_twoEntries _ 100 105 ⟨['a'], 0⟩ ⟨['b'], 0⟩ ⟨['c'], 0⟩ 0 105
      rfl (by decide)).2.1 rfl,
   (updateIdentity_twoEntries _ 100 105 ⟨['a'], 0⟩ ⟨['b'], 0⟩ ⟨['c'], 0⟩ 0 110
      rfl (by decide)).2.2 (by decide) (by decide)⟩

/-- Helper: one per-identity update preserves non-emptiness, the two-entry
bound, and strictly increasing heights. -/
theorem updateIdentity_preserves (s : CIdentityWithHistory) (ident : CIdentity)
    (t h : Nat) (hne : s.ids ≠ []) (hlen : s.ids.length ≤ 2)
    (hsort : keysSorted s.ids = true) :
    ∃ s2 b, s.UpdateIdentity ident t h = some (s2, b) ∧
      s2.ids ≠ [] ∧ s2.ids.length ≤ 2 ∧ keysSorted s2.ids = true := by
  obtain ⟨ver, fl, ids⟩ := s
  simp only at hne hlen hsort
  rcases ids with _ | ⟨⟨k, v⟩, ids'⟩
  · exact absurd rfl hne
  rcases ids' with _ | ⟨⟨k2, v2⟩, ids''⟩
  · by_cases hk : h = k
    · subst hk
      refine ⟨⟨ver, fl, [(h, v)]⟩, true, ?_, by simp, by simp, by rfl⟩
      simp [CIdentityWithHistory.UpdateIdentity]
    · refine ⟨⟨ver, fl, mapInsert h ident [(k, v)]⟩, true, ?_, ?_, ?_, ?_⟩
      · simp [CIdentityWithHistory.UpdateIdentity, hk]
      · simp only [mapInsert]
        split_ifs <;> simp
      · simp only [mapInsert]
        split_ifs <;> simp
      · simp only [mapInsert]
        split_ifs with h1 h2 <;> simp [keysSorted] <;> omega
  · have h3 : ids'' = [] := by
      rw [List.length_cons, List.length_cons] at hlen
      rcases ids'' with _ | ⟨w, t2⟩
      · rfl
      · rw [List.length_cons] at hlen
        omega
    subst h3
    have hk12 : k < k2 := by simpa [keysSorted] using hsort
    by_cases hgt : h > k
    · by_cases hmax : h = k2
      · subst hmax
        refine ⟨⟨ver, fl, [(k, v), (h, v2)]⟩, true, ?_, by simp, by simp, ?_⟩
        · simp [CIdentityWithHistory.UpdateIdentity, lastD, hgt]
        · simpa [keysSorted] using hk12
      · refine ⟨⟨ver, fl, mapInsert h ident [(k2, v2)]⟩, true, ?_, ?_, ?_, ?_⟩
        · simp only [CIdentityWithHistory.UpdateIdentity, lastD]
          rw [if_pos hgt, if_pos (by simpa using hmax)]
        · simp only [mapInsert]
          split_ifs <;> simp
        · simp only [mapInsert]
          split_ifs <;> simp
        · simp only [mapInsert]
          split_ifs with h1 h2 <;> simp [keysSorted] <;> omega
    · refine ⟨⟨ver, fl, [(k, v), (k2, v2)]⟩, false, ?_, by simp, by simp, ?_⟩
      · simp only [CIdentityWithHistory.UpdateIdentity, lastD]
        rw [if_neg hgt]
      · simpa [keysSorted] using hk12

/-- Helper: running any sequence of per-identity updates from an invariant
state stays defined and keeps the invariant. -/
theorem runUpdates_preserves (calls : List (CIdentity × Nat)) :
    ∀ s : CIdentityWithHistory, s.ids ≠ [] → s.ids.length ≤ 2 →
      keysSorted s.ids = true →
      ∃ s2, runUpdates s calls = some s2 ∧
        s2.ids ≠ [] ∧ s2.ids.length ≤ 2 ∧ keysSorted s2.ids = true := by
  induction calls with
  | nil => exact fun s hne hlen hsort => ⟨s, rfl, hne, hlen, hsort⟩
  | cons c rest ih =>
    intro s hne hlen hsort
    obtain ⟨s2, b, hstep, hne2, hlen2, hsort2⟩ :=
      updateIdentity_preserves s c.1 0 c.2 hne hlen hsort
    obtain ⟨s3, hrun, inv3⟩ := ih s2 hne2 hlen2 hsort2
    exact ⟨s3, by simp [runUpdates, hstep, hrun], inv3⟩

/-- C4: from the single-entry history created by `AddIdentity`, any sequence
of `UpdateIdentity` calls with strictly increasing heights leaves a stored
history of at most two entries whose heights are strictly increasing (every
prefix of such a sequence is again such a sequence, so this bounds every
intermediate state as well). -/
theorem updateIdentity_historyBound (id0 : CIdentity) (h0 : Nat)
    (calls : List (CIdentity × Nat))
    (hinc : strictIncr (calls.map Prod.snd) = true) :
    ∃ s2, runUpdates ⟨HISTORY_VERSION_CURRENT, HISTORY_VALID, [(h0, id0)]⟩
        calls = some s2 ∧
      s2.ids.length ≤ 2 ∧ keysSorted s2.ids = true := by
  obtain ⟨s2, hrun, _, hlen, hsort⟩ :=
    runUpdates_preserves calls
      ⟨HISTORY_VERSION_CURRENT, HISTORY_VALID, [(h0, id0)]⟩
      (by simp) (by simp) (by rfl)
  exact ⟨s2, hrun, hlen, hsort⟩

/-- C4, witness: three increasing-height updates on a history seeded at
height 100. -/
theorem updateIdentity_historyBound_witness :
    ∃ s2, runUpdates ⟨HISTORY_VERSION_CURRENT, HISTORY_VALID,
        [(100, ⟨['a'], 0⟩)]⟩
        [(⟨['b'], 0⟩, 105), (⟨['c'], 0⟩, 110), (⟨['d'], 0⟩, 115)] = some s2 ∧
      s2.ids.length ≤ 2 ∧ keysSorted s2.ids = true :=
  updateIdentity_historyBound ⟨['a'], 0⟩ 100
    [(⟨['b'], 0⟩, 105), (⟨['c'], 0⟩, 110), (⟨['d'], 0⟩, 115)] (by decide)

/-- C9: the registry-level `UpdateIdentity` returns false exactly when no
history is filed under `identity.GetNameID()`; when one is found, the inner
per-identity update runs and its boolean result is discarded — the registry
call returns true whether or not the height was accepted. -/
theorem storeUpdateIdentity_spec (M : HashModel) (s : CBasicKeyStore)
    (ident : CIdentity) (txId h : Nat) :
    (alookup s.mapIdentities (ident.getNameID M) = none →
      s.UpdateIdentity M ident txId h = some (s, false)) ∧
    (∀ hist hist2 b,
      alookup s.mapIdentities (ident.getNameID M) = some hist →
      hist.UpdateIdentity ident txId h = some (hist2, b) →
      s.UpdateIdentity M ident txId h =
        some ({ s with mapIdentities :=
                  aassign s.mapIdentities (ident.getNameID M) hist2 },
              true)) := by
  constructor
  · intro hnone
    simp [CBasicKeyStore.UpdateIdentity, hnone]
  · intro hist hist2 b hfound hinner
    simp [CBasicKeyStore.UpdateIdentity, hfound, hinner]

/-- C9, witness: on a store holding the history `{5 ↦ a, 9 ↦ a}` for the
identity `a`, an update at height 3 is rejected by the per-identity history
(inner result false, history unchanged), yet the registry call returns
true. -/
theorem storeUpdateIdentity_spec_witness :
    ({ emptyStore with mapIdentities :=
         [((⟨['a'], 0⟩ : CIdentity).getNameID MC,
           ⟨1, 1, [(5, ⟨['a'], 0⟩), (9, ⟨['a'], 0⟩)]⟩)] } :
        CBasicKeyStore).UpdateIdentity MC ⟨['a'], 0⟩ 0 3 =
      some ({ emptyStore with mapIdentities :=
                (aassign [((⟨['a'], 0⟩ : CIdentity).getNameID MC,
                    ⟨1, 1, [(5, ⟨['a'], 0⟩), (9, ⟨['a'], 0⟩)]⟩)]
                  ((⟨['a'], 0⟩ : CIdentity).getNameID MC)
                  ⟨1, 1, [(5, ⟨['a'], 0⟩), (9, ⟨['a'], 0⟩)]⟩) },
            true) :=
  (storeUpdateIdentity_spec MC
      { emptyStore with mapIdentities :=
          [((⟨['a'], 0⟩ : CIdentity).getNameID MC,
            ⟨1, 1, [(5, ⟨['a'], 0⟩), (9, ⟨['a'], 0⟩)]⟩)] }
      ⟨['a'], 0⟩ 0 3).2
    ⟨1, 1, [(5, ⟨['a'], 0⟩), (9, ⟨['a'], 0⟩)]⟩
    ⟨1, 1, [(5, ⟨['a'], 0⟩), (9, ⟨['a'], 0⟩)]⟩ false
    (by simp [alookup]) (by rfl)

/-! ### Helper lemmas on association lists -/

theorem alookup_mem {α : Type} (l : List (Nat × α)) (k : Nat) (v : α)
    (h : alookup l k = some v) : (k, v) ∈ l := by
  induction l with
  | nil => simp [alookup] at h
  | cons p rest ih =>
    obtain ⟨k1, v1⟩ := p
    by_cases hk : k = k1
    · subst hk
      simp [alookup] at h
      simp [h]
    · simp [alookup, hk] at h
      exact List.mem_cons_of_mem _ (ih h)

theorem mem_aassign {α : Type} (l : List (Nat × α)) (k : Nat) (v : α)
    (e : Nat × α) (h : e ∈ aassign l k v) : e ∈ l ∨ e.2 = v := by
  induction l with
  | nil =>
    simp [aassign] at h
    simp [h]
  | cons p rest ih =>
    obtain ⟨k1, v1⟩ := p
    by_cases hk : k = k1
    · subst hk
      simp [aassign] at h
      rcases h with h | h
      · simp [h]
      · exact Or.inl (List.mem_cons_of_mem _ h)
    · simp [aassign, hk] at h
      rcases h with h | h
      · simp [h]
      · rcases ih h with h2 | h2
        · exact Or.inl (List.mem_cons_of_mem _ h2)
        · exact Or.inr h2

theorem mem_aerase {α : Type} (l : List (Nat × α)) (k : Nat)
    (e : Nat × α) (h : e ∈ aerase l k) : e ∈ l := by
  induction l with
  | nil => simpa [aerase] using h
  | cons p rest ih =>
    obtain ⟨k1, v1⟩ := p
    by_cases hk : k = k1
    · subst hk
      simp [aerase] at h
      exact List.mem_cons_of_mem _ h
    · simp [aerase, hk] at h
      rcases h with h | h
      · simp [h]
      · exact List.mem_cons_of_mem _ (ih h)

theorem mapInsert_ne_nil {α : Type} (k : Nat) (v : α) (l : List (Nat × α)) :
    mapInsert k v l ≠ [] := by
  cases l with
  | nil => simp [mapInsert]
  | cons p rest =>
    obtain ⟨k1, v1⟩ := p
    simp only [mapInsert]
    split_ifs <;> simp

/-- Helper: on a non-empty history the per-identity update is defined and
leaves a non-empty history (no sortedness assumed, since
`AddUpdateIdentityAndHistory` can file arbitrary records). -/
theorem updateIdentity_ne_nil (s : CIdentityWithHistory) (ident : CIdentity)
    (t h : Nat) (hne : s.ids ≠ []) :
    ∃ s2 b, s.UpdateIdentity ident t h = some (s2, b) ∧ s2.ids ≠ [] := by
  obtain ⟨ver, fl, ids⟩ := s
  simp only at hne
  rcases ids with _ | ⟨⟨k, v⟩, ids'⟩
  · exact absurd rfl hne
  rcases ids' with _ | ⟨⟨k2, v2⟩, ids''⟩
  · by_cases hk : h = k
    · subst hk
      exact ⟨⟨ver, fl, [(h, v)]⟩, true,
        by simp [CIdentityWithHistory.UpdateIdentity], by simp⟩
    · exact ⟨⟨ver, fl, mapInsert h ident [(k, v)]⟩, true,
        by simp [CIdentityWithHistory.UpdateIdentity, hk],
        mapInsert_ne_nil h ident [(k, v)]⟩
  · by_cases hgt : h > k
    · by_cases hmax : h = (lastD (k, v) ((k, v) :: (k2, v2) :: ids'')).1
      · refine ⟨⟨ver, fl, (k, v) :: (k2, v2) :: ids''⟩, true, ?_, by simp⟩
        simp only [CIdentityWithHistory.UpdateIdentity]
        rw [if_pos hgt, if_neg (by simpa using hmax)]
      · refine ⟨⟨ver, fl, mapInsert h ident ((k2, v2) :: ids'')⟩, true, ?_,
          mapInsert_ne_nil h ident ((k2, v2) :: ids'')⟩
        simp only [CIdentityWithHistory.UpdateIdentity]
        rw [if_pos hgt, if_pos (by simpa using hmax)]
    · refine ⟨⟨ver, fl, (k, v) :: (k2, v2) :: ids''⟩, false, ?_, by simp⟩
      simp only [CIdentityWithHistory.UpdateIdentity]
      rw [if_neg hgt]

/-- Helper: every registry operation is defined and keeps every stored
history non-empty. -/
theorem stepIdOp_preserves (M : HashModel) (s : CBasicKeyStore)
    (hinv : ∀ e ∈ s.mapIdentities, e.2.ids ≠ []) (op : IdOp) :
    ∃ s2, stepIdOp M s op = some s2 ∧
      ∀ e ∈ s2.mapIdentities, e.2.ids ≠ [] := by
  cases op with
  | add ident txId bh =>
    refine ⟨(s.AddIdentity M ident txId bh).1, rfl, ?_⟩
    by_cases hc : (alookup s.mapIdentities (ident.getNameID M)).isSome
    · simpa [CBasicKeyStore.AddIdentity, hc] using hinv
    · intro e he
      simp only [CBasicKeyStore.AddIdentity, hc, if_false] at he
      rcases mem_aassign _ _ _ e he with h1 | h1
      · exact hinv e h1
      · rw [h1]
        simp
  | update ident txId bh =>
    cases hl : alookup s.mapIdentities (ident.getNameID M) with
    | none =>
      refine ⟨s, ?_, hinv⟩
      simp [stepIdOp, CBasicKeyStore.UpdateIdentity, hl]
    | some hist =>
      have hne : hist.ids ≠ [] := hinv _ (alookup_mem _ _ _ hl)
      obtain ⟨hist2, b, hup, hne2⟩ :=
        updateIdentity_ne_nil hist ident txId bh hne
      refine ⟨{ s with mapIdentities :=
                  aassign s.mapIdentities (ident.getNameID M) hist2 },
        ?_, ?_⟩
      · simp [stepIdOp, CBasicKeyStore.UpdateIdentity, hl, hup]
      · intro e he
        rcases mem_aassign _ _ _ e he with h1 | h1
        · exact hinv e h1
        · rw [h1]
          exact hne2
  | remove idID =>
    refine ⟨(s.RemoveIdentity idID).1, rfl, ?_⟩
    intro e he
    exact hinv e (mem_aerase _ _ e he)
  | addUpdate hist =>
    refine ⟨(s.AddUpdateIdentityAndHistory M hist).1, rfl, ?_⟩
    cases hids : hist.ids with
    | nil =>
      have hres : (s.AddUpdateIdentityAndHistory M hist).1 = s := by
        simp [CBasicKeyStore.AddUpdateIdentityAndHistory, hids]
      rw [hres]
      exact hinv
    | cons p rest =>
      by_cases hv : hist.IsValid = true
      · have hres : (s.AddUpdateIdentityAndHistory M hist).1 =
            { s with mapIdentities :=
                aassign s.mapIdentities (p.2.getNameID M) hist } := by
          simp [CBasicKeyStore.AddUpdateIdentityAndHistory, hids, hv]
        rw [hres]
        intro e he
        rcases mem_aassign _ _ _ e he with h1 | h1
        · exact hinv e h1
        · rw [h1, hids]
          simp
      · have hres : (s.AddUpdateIdentityAndHistory M hist).1 = s := by
          simp [CBasicKeyStore.AddUpdateIdentityAndHistory, hids, hv]
        rw [hres]
        exact hinv

/-- Helper: any registry operation sequence from an invariant store is
defined and keeps every stored history non-empty. -/
theorem runIdOps_preserves (M : HashModel) (ops : List IdOp) :
    ∀ s : CBasicKeyStore, (∀ e ∈ s.mapIdentities, e.2.ids ≠ []) →
      ∃ s2, runIdOps M s ops = some s2 ∧
        ∀ e ∈ s2.mapIdentities, e.2.ids ≠ [] := by
  induction ops with
  | nil => exact fun s hinv => ⟨s, rfl, hinv⟩
  | cons op rest ih =>
    intro s hinv
    obtain ⟨s2, hstep, hinv2⟩ := stepIdOp_preserves M s hinv op
    obtain ⟨s3, hrun, hinv3⟩ := ih s2 hinv2
    exact ⟨s3, by simp [runIdOps, hstep, hrun], hinv3⟩

/-- C10: every registry state reachable from the empty registry through
`AddIdentity` / `UpdateIdentity` / `RemoveIdentity` /
`AddUpdateIdentityAndHistory` stores only non-empty histories, so the
per-identity update's unguarded `ids.begin()` dereference (the `none` case of
`CIdentityWithHistory.UpdateIdentity`) is never reached: the whole run is
defined. -/
theorem reachable_histories_nonEmpty (M : HashModel) (ops : List IdOp) :
    ∃ s2, runIdOps M emptyStore ops = some s2 ∧
      ∀ e ∈ s2.mapIdentities, e.2.ids ≠ [] :=
  runIdOps_preserves M ops emptyStore (by simp [emptyStore])

/-- C10, witness: a concrete operation sequence (add, reject-height update,
accepted update, remove, wholesale replace) runs to a defined store. -/
theorem reachable_histories_nonEmpty_witness :
    ∃ s2, runIdOps MC emptyStore
        [IdOp.add ⟨['a'], 0⟩ 0 100,
         IdOp.update ⟨['a'], 0⟩ 0 105,
         IdOp.update ⟨['a'], 0⟩ 0 103,
         IdOp.remove ((⟨['a'], 0⟩ : CIdentity).getNameID MC),
         IdOp.addUpdate ⟨1, 1, [(7, ⟨['b'], 0⟩)]⟩] = some s2 ∧
      ∀ e ∈ s2.mapIdentities, e.2.ids ≠ [] :=
  reachable_histories_nonEmpty MC
    [IdOp.add ⟨['a'], 0⟩ 0 100,
     IdOp.update ⟨['a'], 0⟩ 0 105,
     IdOp.update ⟨['a'], 0⟩ 0 103,
     IdOp.remove ((⟨['a'], 0⟩ : CIdentity).getNameID MC),
     IdOp.addUpdate ⟨1, 1, [(7, ⟨['b'], 0⟩)]⟩]

theorem alookup_aassign_self {α : Type} (l : List (Nat × α)) (k : Nat)
    (v : α) : alookup (aassign l k v) k = some v := by
  induction l with
  | nil => simp [aassign, alookup]
  | cons p rest ih =>
    obtain ⟨k1, v1⟩ := p
    by_cases hk : k = k1
    · subst hk
      simp [aassign, alookup]
    · simp [aassign, alookup, hk, ih]

/-- C5: after `AddSaplingSpendingKey(sk, addr)` succeeds (it always does),
`GetSaplingExtendedSpendingKey(addr)` walks address → incoming viewing key →
full viewing key → spending key and returns exactly `sk`. -/
theorem addSaplingSpendingKey_roundTrip (E : SaplingExt) (s : CBasicKeyStore)
    (sk addr : Nat) :
    (s.AddSaplingSpendingKey E sk addr).2 = true ∧
    (s.AddSaplingSpendingKey E sk addr).1.GetSaplingExtendedSpendingKey addr
      = some sk := by
  constructor
  · simp [CBasicKeyStore.AddSaplingSpendingKey,
      CBasicKeyStore.AddSaplingFullViewingKey,
      CBasicKeyStore.AddSaplingIncomingViewingKey]
  · simp [CBasicKeyStore.AddSaplingSpendingKey,
      CBasicKeyStore.AddSaplingFullViewingKey,
      CBasicKeyStore.AddSaplingIncomingViewingKey,
      CBasicKeyStore.GetSaplingExtendedSpendingKey,
      CBasicKeyStore.GetSaplingIncomingViewingKey,
      CBasicKeyStore.GetSaplingFullViewingKey,
      CBasicKeyStore.GetSaplingSpendingKey,
      alookup_aassign_self]

/-- C6: a non-oversized script that decodes to a valid identity-primary
condition embedding well-formed identity `I` is stored under
`ScriptID(I.GetNameID())`; every other non-oversized script is stored under
its own hash-based ID. -/
theorem addCScript_identityAware (E : ScriptExt) (M : HashModel)
    (s : CBasicKeyStore) (scr : List Nat)
    (hsize : scr.length ≤ MAX_SCRIPT_ELEMENT_SIZE) :
    (∀ I, isIdentityPrimaryScript E scr = true →
      embeddedIdentity E scr = some I →
      s.AddCScript E M scr =
        ({ s with mapScripts := aassign s.mapScripts (I.getNameID M) scr },
         true)) ∧
    (isIdentityPrimaryScript E scr = false →
      s.AddCScript E M scr =
        ({ s with mapScripts := aassign s.mapScripts (E.scriptID scr) scr },
         true)) := by
  have hnot : ¬ scr.length > MAX_SCRIPT_ELEMENT_SIZE := by omega
  constructor
  · intro I hprim hemb
    simp only [CBasicKeyStore.AddCScript, if_neg hnot]
    cases hp : E.isPayToCryptoCondition scr with
    | none => simp [isIdentityPrimaryScript, hp] at hprim
    | some p =>
      cases hd : p.vData with
      | nil => simp [isIdentityPrimaryScript, hp, hd] at hprim
      | cons d rest =>
        simp only [isIdentityPrimaryScript, hp, hd] at hprim
        simp only [embeddedIdentity, hp, hd, Option.some.injEq] at hemb
        have hcond : p.isValid ∧ p.evalCode = EVAL_IDENTITY_PRIMARY ∧
            E.identityIsValid (E.identityFromData d) := by
          by_contra hc
          rw [if_neg hc] at hprim
          exact Bool.false_ne_true hprim
        rw [hemb] at hcond
        simp only [ScriptOrIdentityID, hp, hd, hemb, if_pos hcond]
  · intro hprim
    simp only [CBasicKeyStore.AddCScript, if_neg hnot]
    cases hp : E.isPayToCryptoCondition scr with
    | none => simp [ScriptOrIdentityID, hp]
    | some p =>
      cases hd : p.vData with
      | nil => simp [ScriptOrIdentityID, hp, hd]
      | cons d rest =>
        simp only [isIdentityPrimaryScript, hp, hd] at hprim
        have hcond : ¬ (p.isValid ∧ p.evalCode = EVAL_IDENTITY_PRIMARY ∧
            E.identityIsValid (E.identityFromData d)) := by
          intro hc
          rw [if_pos hc] at hprim
          exact Bool.true_eq_false.mp hprim
        simp only [ScriptOrIdentityID, hp, hd, if_neg hcond]

/-- C6, witness: with the concrete decoder `EC`, the identity-primary script
`[1]` is filed under the embedded identity's name ID while the plain script
`[2]` is filed under its own script ID. -/
theorem addCScript_identityAware_witness :
    (emptyStore.AddCScript EC MC [1] =
      ({ emptyStore with mapScripts :=
           (aassign emptyStore.mapScripts
             ((⟨['a'], 0⟩ : CIdentity).getNameID MC) [1]) }, true)) ∧
    (emptyStore.AddCScript EC MC [2] =
      ({ emptyStore with mapScripts :=
           (aassign emptyStore.mapScripts (EC.scriptID [2]) [2]) }, true)) :=
  ⟨(addCScript_identityAware EC MC emptyStore [1] (by decide)).1
      ⟨['a'], 0⟩ (by decide) (by decide),
   (addCScript_identityAware EC MC emptyStore [2] (by decide)).2 (by decide)⟩

/-- Helper: once a seed is stored, every further `SetHDSeed` fails and
changes nothing. -/
theorem runSetHDSeeds_stuck (seeds : List Nat) :
    ∀ (s : CBasicKeyStore) (x : Nat), s.hdSeed = some x →
      runSetHDSeeds s seeds = (s, seeds.map fun _ => false) := by
  induction seeds with
  | nil => intro s x _; rfl
  | cons seed rest ih =>
    intro s x hx
    have hstep : s.SetHDSeed seed = (s, false) := by
      simp [CBasicKeyStore.SetHDSeed, hx]
    simp [runSetHDSeeds, hstep, ih s x hx]

/-- C7: on a store with no seed, the first `SetHDSeed` returns true; every
subsequent `SetHDSeed` call returns false and the stored seed — as returned
by `GetHDSeed` — is still the first one. -/
theorem setHDSeed_writeOnce (s : CBasicKeyStore) (seed1 : Nat)
    (seeds : List Nat) (hnull : s.hdSeed = none) :
    (s.SetHDSeed seed1).2 = true ∧
    (runSetHDSeeds (s.SetHDSeed seed1).1 seeds).2 =
      (seeds.map fun _ => false) ∧
    (runSetHDSeeds (s.SetHDSeed seed1).1 seeds).1.GetHDSeed = some seed1 := by
  have h1 : s.SetHDSeed seed1 = ({ s with hdSeed := some seed1 }, true) := by
    simp [CBasicKeyStore.SetHDSeed, hnull]
  rw [h1]
  rw [runSetHDSeeds_stuck seeds { s with hdSeed := some seed1 } seed1 rfl]
  exact ⟨rfl, rfl, rfl⟩

/-- C7, witness: seed 7 sticks; later attempts with 8 and 9 both fail and
`GetHDSeed` still returns 7. -/
theorem setHDSeed_writeOnce_witness :
    (emptyStore.SetHDSeed 7).2 = true ∧
    (runSetHDSeeds (emptyStore.SetHDSeed 7).1 [8, 9]).2 =
      ([8, 9].map fun _ => false) ∧
    (runSetHDSeeds (emptyStore.SetHDSeed 7).1 [8, 9]).1.GetHDSeed = some 7 :=
  setHDSeed_writeOnce emptyStore 7 [8, 9] rfl

/-- C8 (amended): every label produced by parsing is capped at
`KOMODO_ASSETCHAIN_MAXLEN - 1` characters, so names whose parses agree —
in particular names whose over-long labels agree on the first `max - 1`
characters — give identical `CleanName` results (leaf and accumulated
parent); but the final ID of `GetNameID` hashes the untruncated lower-cased
original string, not the truncated labels. -/
theorem labelTruncation_spec (M : HashModel) (n1 n2 : List Char)
    (parent : Nat) :
    (∀ l ∈ ParseSubNames n1, l.length ≤ KOMODO_ASSETCHAIN_MAXLEN - 1) ∧
    (ParseSubNames n1 = ParseSubNames n2 →
      CIdentity.CleanName M n1 parent = CIdentity.CleanName M n2 parent) ∧
    (GetNameID M n1 parent =
      M.hash160 (if parent = 0 then M.hashStr (cstr (lowerStr n1))
                 else M.hashCat parent (M.hashStr (cstr (lowerStr n1))))) := by
  refine ⟨?_, ?_, ?_⟩
  · intro l hl
    simp only [ParseSubNames, List.mem_map] at hl
    obtain ⟨x, _, hxl⟩ := hl
    by_cases hlen : x.length > KOMODO_ASSETCHAIN_MAXLEN - 1
    · rw [← hxl, if_pos hlen]
      simp [List.length_take]
    · rw [← hxl, if_neg hlen]
      omega
  · intro h
    simp only [CIdentity.CleanName, h]
  · rfl

def longA : List Char := List.replicate 64 'a'

/-- C8, counterexample: the 66-character names `a^64 ++ "bb"` and
`a^64 ++ "cc"` agree on their first `max - 1 = 64` characters and parse to
the same truncated label, yet `GetNameID` (which hashes the untruncated
lower-cased original string) gives different IDs under the concrete hash
instantiation. -/
theorem getNameID_truncation_counterexample :
    ParseSubNames (longA ++ ['b', 'b']) = ParseSubNames (longA ++ ['c', 'c']) ∧
    (longA ++ ['b', 'b']).length > KOMODO_ASSETCHAIN_MAXLEN ∧
    GetNameID MC (longA ++ ['b', 'b']) 0 ≠ GetNameID MC (longA ++ ['c', 'c']) 0
    := by
  refine ⟨by decide, by decide, by decide⟩

/-- C8, witness: two names whose over-long ancestor label differs only past
the truncation cutoff produce the same `CleanName` leaf and accumulated
parent. -/
theorem labelTruncation_spec_witness :
    CIdentity.CleanName MC (str "x." ++ (longA ++ ['b', 'b'])) 0 =
      CIdentity.CleanName MC (str "x." ++ (longA ++ ['c', 'c'])) 0 :=
  (labelTruncation_spec MC (str "x." ++ (longA ++ ['b', 'b']))
    (str "x." ++ (longA ++ ['c', 'c'])) 0).2.1 (by decide)

/-- C10, counterexample: the registry state reached from the empty registry
by a single `AddUpdateIdentityAndHistory` of a valid 3-entry record stores a
history holding three entries — `AddUpdateIdentityAndHistory` files any valid
non-empty record, so stored histories are not bounded to 1 or 2 entries. -/
theorem reachable_history_three_entries :
    runIdOps MC emptyStore
      [IdOp.addUpdate ⟨1, 1, [(1, ⟨['b'], 0⟩), (2, ⟨['b'], 0⟩),
        (3, ⟨['b'], 0⟩)]⟩] =
      some { emptyStore with mapIdentities :=
        [((⟨['b'], 0⟩ : CIdentity).getNameID MC,
          ⟨1, 1, [(1, ⟨['b'], 0⟩), (2, ⟨['b'], 0⟩), (3, ⟨['b'], 0⟩)]⟩)] } ∧
    (⟨1, 1, [(1, ⟨['b'], 0⟩), (2, ⟨['b'], 0⟩), (3, ⟨['b'], 0⟩)]⟩ :
      CIdentityWithHistory).ids.length = 3 := by
  refine ⟨by rfl, by rfl⟩
